import Mathlib

/-
Verification of the b-reach content pipeline (parser.rs, watch.rs, server.rs).

Modelling conventions:
* Rust `String`/`&str` values are modelled as `List Char`; byte indices of the
  source (`find`, `insert_str`, `replace_range`) are modelled as character
  indices, which coincide with byte indices whenever the surrounding text is
  ASCII (all fixed patterns searched for by the program are ASCII).
* `char::is_alphanumeric` (full Unicode) is kept abstract as a parameter
  `ia : Char → Bool`; theorems that need it assume only that ASCII letters are
  alphanumeric, which holds for the real predicate.
* `char::is_whitespace` is the Unicode White_Space property, embedded exactly
  (the 25 code points).
* The external SCSS compiler (`grass::from_string`) and the external 64-bit
  hasher (`fxhash::FxHasher64`) are kept abstract as parameters `compile` and
  `w`; the repository treats both as external functions.
-/

set_option maxRecDepth 10000

namespace BReach

/-- The Unicode White_Space code points, i.e. Rust `char::is_whitespace`. -/
def isRustWs (c : Char) : Bool :=
  c.toNat == 0x09 || c.toNat == 0x0A || c.toNat == 0x0B || c.toNat == 0x0C ||
  c.toNat == 0x0D || c.toNat == 0x20 || c.toNat == 0x85 || c.toNat == 0xA0 ||
  c.toNat == 0x1680 || (0x2000 ≤ c.toNat && c.toNat ≤ 0x200A) ||
  c.toNat == 0x2028 || c.toNat == 0x2029 || c.toNat == 0x202F ||
  c.toNat == 0x205F || c.toNat == 0x3000

/-- Rust `char::to_ascii_lowercase`. -/
def asciiLower (c : Char) : Char :=
  if 'A' ≤ c ∧ c ≤ 'Z' then Char.ofNat (c.toNat + 32) else c

/-- Rust `str::eq_ignore_ascii_case` on the two character lists: same length
and pointwise equal after ASCII lowercasing. -/
def eqIgnoreAsciiCase : List Char → List Char → Bool
  | [], [] => true
  | c :: u, k :: kw => asciiLower c == asciiLower k && eqIgnoreAsciiCase u kw
  | _, _ => false

/-- Rust `str::trim_start` (drop leading whitespace). -/
def trimStartL (s : List Char) : List Char := s.dropWhile isRustWs

/-- Rust `str::trim_end` (drop trailing whitespace). -/
def trimEndL (s : List Char) : List Char := (s.reverse.dropWhile isRustWs).reverse

/-- Rust `str::trim`. -/
def trimL (s : List Char) : List Char := trimEndL (trimStartL s)

/-- `Vec::join(sep)`: interleave `sep` between the elements. -/
def joinSep (sep : List Char) : List (List Char) → List Char
  | [] => []
  | [x] => x
  | x :: y :: rest => x ++ sep ++ joinSep sep (y :: rest)

/-- UTF-8 encoding of a single character (Rust `str::as_bytes`, per char). -/
def charUtf8 (c : Char) : List Nat :=
  let n := c.toNat
  if n < 0x80 then [n]
  else if n < 0x800 then [0xC0 + n / 0x40, 0x80 + n % 0x40]
  else if n < 0x10000 then
    [0xE0 + n / 0x1000, 0x80 + n / 0x40 % 0x40, 0x80 + n % 0x40]
  else
    [0xF0 + n / 0x40000, 0x80 + n / 0x1000 % 0x40, 0x80 + n / 0x40 % 0x40,
     0x80 + n % 0x40]

/-- UTF-8 bytes of a string (Rust `str::as_bytes`). -/
def utf8 (s : List Char) : List Nat := s.foldr (fun c acc => charUtf8 c ++ acc) []

/-- Leftmost position of `pat` in a list (Rust `str::find` for a literal pattern). -/
def findSub (pat : List Char) : List Char → Option Nat
  | [] => if pat.isPrefixOf ([] : List Char) then some 0 else none
  | c :: t =>
    if pat.isPrefixOf (c :: t) then some 0 else (findSub pat t).map (· + 1)

/-- Whether `pat` occurs somewhere in `hay` (Rust `str::contains`). -/
def containsSub (hay pat : List Char) : Bool := (findSub pat hay).isSome

/-- Rust `str::strip_prefix`. -/
def stripPre (pre s : List Char) : Option (List Char) :=
  if pre.isPrefixOf s then some (s.drop pre.length) else none

/-- `String::insert_str(i, ins)`: insert `ins` at position `i`. -/
def insertAt (s : List Char) (i : Nat) (ins : List Char) : List Char :=
  s.take i ++ ins ++ s.drop i

/-- The slice `s[a..b]` (Rust panics when `b < a` or out of range; the model
yields a short or empty list there — no claim exercises that case). -/
def seg (s : List Char) (a b : Nat) : List Char := (s.take b).drop a

/- ### parser.rs: data model -/

/-- `ParsedContent` of parser.rs. -/
structure ParsedContent where
  markup : Option (List Char)
  styling : Option (List Char)
  script : Option (List Char)
deriving DecidableEq, Repr

/-- `PreparedContent` of parser.rs (`fingerprint: u64`). -/
structure PreparedContent where
  parsed : ParsedContent
  html_injected : Option (List Char)
  fingerprint : UInt64
deriving DecidableEq, Repr

/- ### parser.rs: section splitting -/

/-- `normalize_newlines` first pass: `s.replace("\r\n", "\n")`. -/
def replaceCrlf : List Char → List Char
  | '\r' :: '\n' :: rest => '\n' :: replaceCrlf rest
  | c :: rest => c :: replaceCrlf rest
  | [] => []

/-- parser.rs `normalize_newlines`: replace `"\r\n"` by `"\n"`, then every
remaining `'\r'` by `'\n'`. -/
def normalize_newlines (s : List Char) : List Char :=
  (replaceCrlf s).map (fun c => if c == '\r' then '\n' else c)

/-- parser.rs `starts_with_section_marker`: after trimming leading whitespace
the line must start with the glyph `¦`, and the maximal alphanumeric run after
the glyph must equal `name` up to ASCII case. `ia` is `char::is_alphanumeric`. -/
def starts_with_section_marker (ia : Char → Bool) (line name : List Char) : Bool :=
  match trimStartL line with
  | [] => false
  | c :: rest => c == '¦' && eqIgnoreAsciiCase (rest.takeWhile ia) name

/-- The `SectionType` enum of `parse_breach_content`. -/
inductive SectionType where
  | none | markup | cssStyling | scssStyling | script
deriving DecidableEq, Repr

/-- The four accumulator vectors of `parse_breach_content`'s loop. -/
structure SectionsAcc where
  markupL : List (List Char)
  cssL : List (List Char)
  scssL : List (List Char)
  scriptL : List (List Char)
deriving DecidableEq, Repr

/-- Which section a marker line switches to (`None` when the line is not a
marker line), following the order of checks in `parse_breach_content`. -/
def lineSection (ia : Char → Bool) (l : List Char) : Option SectionType :=
  if starts_with_section_marker ia l ("html".toList) then some SectionType.markup
  else if starts_with_section_marker ia l ("css".toList) then some SectionType.cssStyling
  else if starts_with_section_marker ia l ("scss".toList) then some SectionType.scssStyling
  else if starts_with_section_marker ia l ("js".toList) ||
          starts_with_section_marker ia l ("ts".toList) ||
          starts_with_section_marker ia l ("typescript".toList) then some SectionType.script
  else none

/-- The line loop of `parse_breach_content`: marker lines switch the current
section and are consumed; other lines are pushed onto the current section's
vector (dropped while the current section is `None`). -/
def collect (ia : Char → Bool) : SectionType → List (List Char) → SectionsAcc
  | _, [] => ⟨[], [], [], []⟩
  | cur, l :: ls =>
    match lineSection ia l with
    | some s => collect ia s ls
    | none =>
      let acc := collect ia cur ls
      match cur with
      | SectionType.none => acc
      | SectionType.markup => { acc with markupL := l :: acc.markupL }
      | SectionType.cssStyling => { acc with cssL := l :: acc.cssL }
      | SectionType.scssStyling => { acc with scssL := l :: acc.scssL }
      | SectionType.script => { acc with scriptL := l :: acc.scriptL }

/-- Rust `str::lines` (no `'\r'` handling needed: callers normalize first). -/
def rustLines (s : List Char) : List (List Char) :=
  match s with
  | [] => []
  | _ =>
    let parts := s.splitOn '\n'
    if s.getLast? = some '\n' then parts.dropLast else parts

/-- BOM stripping, newline normalization and line splitting of
`parse_breach_content`. -/
def breachLines (content : List Char) : List (List Char) :=
  rustLines (normalize_newlines (content.dropWhile (· == '\uFEFF')))

/-- The `"/* CSS */"` sub-block tag. -/
def cssTag : List Char := "/* CSS */".toList

/-- The `"/* SCSS */"` sub-block tag. -/
def scssTag : List Char := "/* SCSS */".toList

/-- The `"/* EOF */"` sub-block delimiter. -/
def eofTag : List Char := "/* EOF */".toList

/-- A single newline, `"\n"`. -/
def nlL : List Char := "\n".toList

/-- A blank-line separator, `"\n\n"`. -/
def nn : List Char := "\n\n".toList

/-- parser.rs `parse_breach_content`. -/
def parse_breach_content (ia : Char → Bool) (content : List Char) : ParsedContent :=
  let acc := collect ia SectionType.none (breachLines content)
  let markup := joinSep nlL acc.markupL
  let css_styling := joinSep nlL acc.cssL
  let scss_styling := joinSep nlL acc.scssL
  let script := joinSep nlL acc.scriptL
  let styling_sections :=
    (if trimL css_styling = [] then [] else [cssTag ++ nlL ++ css_styling ++ nlL ++ eofTag]) ++
    (if trimL scss_styling = [] then [] else [scssTag ++ nlL ++ scss_styling ++ nlL ++ eofTag])
  let combined_styling :=
    if styling_sections = [] then Option.none else some (joinSep nn styling_sections)
  { markup := if trimL markup = [] then Option.none else some markup
    styling := combined_styling
    script := if trimL script = [] then Option.none else some script }

/- ### parser.rs: styling preprocessing -/

/-- The split on `"/* EOF */"` delimiters (Rust `str::split` for this literal
pattern): scan left to right, cut at each occurrence of the delimiter. -/
def splitEofAux : List Char → List Char → List (List Char)
  | acc, [] => [acc.reverse]
  | acc, c :: rest =>
    if eofTag.isPrefixOf (c :: rest) then
      acc.reverse :: splitEofAux [] (rest.drop (eofTag.length - 1))
    else
      splitEofAux (c :: acc) rest
termination_by _ s => s.length
decreasing_by
  all_goals simp_wf
  have : (rest.drop (eofTag.length - 1)).length ≤ rest.length := by
    simp
  omega

/-- `styling_content.split("/* EOF */")`. -/
def split_eof (s : List Char) : List (List Char) := splitEofAux [] s

/-- The per-section loop of `process_styling_content`: trim, skip empty pieces,
dispatch on the `"/* CSS */"` / `"/* SCSS */"` tag (unknown content is treated
as CSS), compiling SCSS and falling back to the raw (trimmed) SCSS text when
the external compiler `compile` fails. -/
def processSections (compile : List Char → Except Unit (List Char)) :
    List (List Char) → List (List Char)
  | [] => []
  | sec :: rest =>
    let trimmed := trimL sec
    if trimmed = [] then processSections compile rest
    else
      match stripPre cssTag trimmed with
      | some cssContent =>
        let css := trimL cssContent
        if css = [] then processSections compile rest
        else css :: processSections compile rest
      | none =>
        match stripPre scssTag trimmed with
        | some scssContent =>
          let scss := trimL scssContent
          if scss = [] then processSections compile rest
          else
            (match compile scss with
             | Except.ok compiled => compiled
             | Except.error _ => scss) :: processSections compile rest
        | none => trimmed :: processSections compile rest

/-- parser.rs `process_styling_content`. -/
def process_styling_content (compile : List Char → Except Unit (List Char))
    (styling_content : List Char) : List Char :=
  joinSep nn (processSections compile (split_eof styling_content))

/- ### parser.rs: link injection -/

/-- parser.rs `find_case_insensitive`: lowercase both strings (ASCII case) and
report the leftmost position. -/
def find_case_insensitive (haystack needle : List Char) : Option Nat :=
  findSub (needle.map asciiLower) (haystack.map asciiLower)

/-- parser.rs `extract_and_remove_title`: locate `<title>`/`</title>` case
insensitively, extract the trimmed text between them and delete the whole
range from the document. -/
def extract_and_remove_title (html : List Char) : List Char × Option (List Char) :=
  let title_start := find_case_insensitive html ("<title>".toList)
  let title_end :=
    match title_start with
    | some _ => find_case_insensitive html ("</title>".toList)
    | none => none
  match title_start, title_end with
  | some ts, some te =>
    (html.take ts ++ html.drop (te + "</title>".toList.length),
     some (trimL (seg html (ts + "<title>".toList.length) te)))
  | _, _ => (html, none)

/-- parser.rs `inject_css_link`: before `</head>`, else after `<head>`, else
after `<html>` synthesizing a head (re-inserting the saved title), else
prepend a synthesized head block. -/
def inject_css_link (html link_tag : List Char) (title_content : Option (List Char)) :
    List Char :=
  match find_case_insensitive html ("</head>".toList) with
  | some head_end => insertAt html head_end (nlL ++ "    ".toList ++ link_tag)
  | none =>
    match find_case_insensitive html ("<head>".toList) with
    | some head_start =>
      insertAt html (head_start + "<head>".toList.length) (nlL ++ "    ".toList ++ link_tag)
    | none =>
      match find_case_insensitive html ("<html>".toList) with
      | some html_open =>
        let head_content :=
          match title_content with
          | some tc =>
            "<head>\n    ".toList ++ link_tag ++ "\n    <title>".toList ++ tc ++
              "</title>\n</head>".toList
          | none => "<head>\n    ".toList ++ link_tag ++ "\n</head>".toList
        insertAt html (html_open + "<html>".toList.length) (nlL ++ head_content)
      | none =>
        match title_content with
        | some tc =>
          "<head>\n    <meta charset=\"utf-8\">\n    ".toList ++ link_tag ++
            "\n    <title>".toList ++ tc ++ "</title>\n</head>\n".toList ++ html
        | none =>
          "<head>\n    <meta charset=\"utf-8\">\n    ".toList ++ link_tag ++
            "\n</head>\n".toList ++ html

/-- parser.rs `inject_js_script`: before `</body>` when present, else append
after a newline. -/
def inject_js_script (html script_tag : List Char) : List Char :=
  match find_case_insensitive html ("</body>".toList) with
  | some body_end => insertAt html body_end (nlL ++ "    ".toList ++ script_tag)
  | none => html ++ nlL ++ script_tag

/-- The fixed live-reload bootstrap script appended by `inject_links_once`
(braces and apostrophes written as `\x7b`, `\x7d`, `\x27` escapes). -/
def liveReloadScript : List Char :=
  ("<script>\n(function() \x7b\n    console.log(\x27B-REACH: Initializing live reload...\x27);\n    var ws = new WebSocket(\x27ws://\x27 + window.location.host + \x27/ws\x27);\n    console.log(\x27B-REACH: Attempting to connect to WebSocket at:\x27, \x27ws://\x27 + window.location.host + \x27/ws\x27);\n\n    ws.onopen = function(event) \x7b\n        console.log(\x27B-REACH: Live reload WebSocket connection established\x27);\n    \x7d;\n\n    ws.onmessage = function(event) \x7b\n        console.log(\x27B-REACH: Received WebSocket message:\x27, event.data);\n        if (event.data === \x27reload\x27) \x7b\n            console.log(\x27B-REACH: Reload signal received, refreshing page...\x27);\n            window.location.reload();\n        \x7d else \x7b\n            console.log(\x27B-REACH: Unknown message received:\x27, event.data);\n        \x7d\n    \x7d;\n\n    ws.onclose = function(event) \x7b\n        console.log(\x27B-REACH: Live reload WebSocket connection closed\x27, \x7b\n            code: event.code,\n            reason: event.reason,\n            wasClean: event.wasClean\n        \x7d);\n    \x7d;\n\n    ws.onerror = function(error) \x7b\n        console.error(\x27B-REACH: Live reload WebSocket connection error:\x27, error);\n        console.error(\x27B-REACH: This may indicate the server is not running or WebSocket endpoint is unavailable\x27);\n    \x7d;\n\n    // Log connection attempt every 5 seconds if not connected\n    var connectionCheck = setInterval(function() \x7b\n        if (ws.readyState === WebSocket.CONNECTING) \x7b\n            console.log(\x27B-REACH: Still attempting to connect to live reload WebSocket...\x27);\n        \x7d else if (ws.readyState === WebSocket.CLOSED) \x7b\n            console.warn(\x27B-REACH: WebSocket connection is closed, attempting to reconnect...\x27);\n            clearInterval(connectionCheck);\n        \x7d else \x7b\n            clearInterval(connectionCheck);\n        \x7d\n    \x7d, 5000);\n\x7d)();\n</script>").toList

/-- The stylesheet link tag with cache-busting fingerprint parameter. -/
def linkTagFor (fingerprint : UInt64) : List Char :=
  "<link rel=\"stylesheet\" href=\"/style.css?v=".toList ++ (toString fingerprint).toList ++
    "\">".toList

/-- The script tag with cache-busting fingerprint parameter. -/
def scriptTagFor (fingerprint : UInt64) : List Char :=
  "<script src=\"/script.js?v=".toList ++ (toString fingerprint).toList ++
    "\"></script>".toList

/-- parser.rs `inject_links_once`: extract the title, inject the stylesheet
link when styling is present, the script tag when script is present, and
always append the live-reload bootstrap script. -/
def inject_links_once (html : List Char) (has_css has_js : Bool)
    (fingerprint : UInt64) : List Char :=
  let et := extract_and_remove_title html
  let r1 := if has_css then inject_css_link et.1 (linkTagFor fingerprint) et.2 else et.1
  let r2 := if has_js then inject_js_script r1 (scriptTagFor fingerprint) else r1
  inject_js_script r2 liveReloadScript

/- ### parser.rs: fingerprint and prepare -/

/-- The sentinel bytes `b"NO_SCRIPT"` hashed when no script section exists. -/
def noScriptBytes : List Nat := utf8 ("NO_SCRIPT".toList)

/-- The fingerprint computation of `prepare`: an `FxHasher64` (abstracted as
the update function `w` on the 64-bit state, initial state 0, `finish`
returning the state) written with the markup bytes when present, then the
styling bytes when present, then the script bytes — or `b"NO_SCRIPT"` when no
script section is present. -/
def fingerprintOf (w : UInt64 → List Nat → UInt64) (p : ParsedContent) : UInt64 :=
  let h0 : UInt64 := 0
  let h1 := match p.markup with | some m => w h0 (utf8 m) | none => h0
  let h2 := match p.styling with | some s => w h1 (utf8 s) | none => h1
  match p.script with | some s => w h2 (utf8 s) | none => w h2 noScriptBytes

/-- parser.rs `prepare`: process the styling (dropping an all-whitespace
result), fingerprint the final artifacts, and inject links into the markup. -/
def prepare (w : UInt64 → List Nat → UInt64)
    (compile : List Char → Except Unit (List Char))
    (parsed : ParsedContent) : PreparedContent :=
  let final_css :=
    match parsed.styling with
    | some styling_content =>
      let processed_css := process_styling_content compile styling_content
      if trimL processed_css = [] then Option.none else some processed_css
    | none => Option.none
  let parsed' : ParsedContent := { parsed with styling := final_css }
  let fingerprint := fingerprintOf w parsed'
  let html_injected :=
    parsed'.markup.map
      (fun m => inject_links_once m final_css.isSome parsed'.script.isSome fingerprint)
  { parsed := parsed', html_injected := html_injected, fingerprint := fingerprint }

/- ### server.rs: request handling -/

/-- The status/body part of an HTTP response relevant to the claims. -/
structure HttpResponse where
  status : Nat
  body : List Char
deriving DecidableEq, Repr

/-- server.rs `serve_content`: 200 with the selected content when present,
404 with `"Resource not found"` otherwise. -/
def serve_content (p : PreparedContent) (content_getter : PreparedContent → Option (List Char)) :
    HttpResponse :=
  match content_getter p with
  | some content => ⟨200, content⟩
  | none => ⟨404, "Resource not found".toList⟩

/-- server.rs `index` (also `index_html`): serves `html_injected`. -/
def indexHandler (p : PreparedContent) : HttpResponse :=
  serve_content p (fun q => q.html_injected)

/-- server.rs `style_css`: serves the final styling artifact (the handler
names the field `parsed.css`; on parser.rs's `ParsedContent` this is the
`styling` field, which `prepare` fills with the final CSS). -/
def styleCssHandler (p : PreparedContent) : HttpResponse :=
  serve_content p (fun q => q.parsed.styling)

/-- server.rs `script_js`: serves the raw script section (`parsed.js` in the
handler, the `script` field of parser.rs's `ParsedContent`). -/
def scriptJsHandler (p : PreparedContent) : HttpResponse :=
  serve_content p (fun q => q.parsed.script)

/-- server.rs `favicon_ico`: always 204 No Content. -/
def faviconHandler : HttpResponse := ⟨204, []⟩

/-- server.rs `not_found`: 404 with `"Page not found"`. -/
def notFoundHandler : HttpResponse := ⟨404, "Page not found".toList⟩

/-- Modelled from the spec: the HTTP routing table (the ntex route
registration is not under src/ — only the handlers are). `GET /` and
`/index.html` go to `index`/`index_html`, `/style.css` to `style_css`,
`/script.js` to `script_js`, `/favicon.ico` to `favicon_ico`, anything else
to `not_found`. -/
def handleRequest (p : PreparedContent) (path : List Char) : HttpResponse :=
  if path = "/".toList ∨ path = "/index.html".toList then indexHandler p
  else if path = "/style.css".toList then styleCssHandler p
  else if path = "/script.js".toList then scriptJsHandler p
  else if path = "/favicon.ico".toList then faviconHandler
  else notFoundHandler

/- ### watch.rs: the watcher loop -/

/-- The debounce threshold of watch.rs, in milliseconds. -/
def debounceMs : Nat := 100

/-- The watcher's mutable state: `last_fingerprint`, the `ArcSwap` content
slot, and `last_event_time` (`none` when idle). Time is in milliseconds. -/
structure WatchState where
  lastFingerprint : UInt64
  store : PreparedContent
  pending : Option Nat
deriving Repr

/-- One iteration input of the `select!` loop in `watch_file`: either a file
notification (with its `Modify` kind flag and whether the watched path is in
`event.paths`), or the 50 ms timeout tick. -/
inductive WatchInput where
  | fileEvent (isModify : Bool) (pathMatches : Bool)
  | tick
deriving Repr

/-- The watcher state as `watch_file` initializes it:
`last_fingerprint = content.load().fingerprint`, no pending event. -/
def initialWatchState (initial : PreparedContent) : WatchState :=
  ⟨initial.fingerprint, initial, none⟩

/-- One iteration of the `watch_file` loop. `loadResult` is the outcome of
`load_prepared_from_file` if this iteration reloads; `now` is the current
time in milliseconds. Returns the new state and whether a reload broadcast
was sent (`reload_tx.send`). -/
def watchStep (loadResult : Except Unit PreparedContent) (st : WatchState)
    (inp : WatchInput) (now : Nat) : WatchState × Bool :=
  match inp with
  | WatchInput.fileEvent isModify pathMatches =>
    if isModify && pathMatches then ({ st with pending := some now }, false)
    else (st, false)
  | WatchInput.tick =>
    match st.pending with
    | some eventTime =>
      if debounceMs ≤ now - eventTime then
        match loadResult with
        | Except.ok newPrepared =>
          if newPrepared.fingerprint ≠ st.lastFingerprint then
            ({ lastFingerprint := newPrepared.fingerprint, store := newPrepared,
               pending := none }, true)
          else
            ({ st with pending := none }, false)
        | Except.error _ => ({ st with pending := none }, false)
      else (st, false)
    | none => (st, false)

/-- The invariant relating the watcher's `last_fingerprint` to the store. -/
def watchInv (st : WatchState) : Prop := st.lastFingerprint = st.store.fingerprint

/-- A trivial concrete hash-update function, used only to instantiate
witnesses (any function works; the real one is `FxHasher64`). -/
def wDemo : UInt64 → List Nat → UInt64 :=
  fun h bs => bs.foldl (fun a b => a * 31 + UInt64.ofNat b) (h * 131 + 7)

/-- A concrete stand-in compiler that always succeeds, for witnesses. -/
def compileOk : List Char → Except Unit (List Char) :=
  fun s => Except.ok ('C' :: s)

/-- A concrete stand-in compiler that always fails, for counterexamples. -/
def compileFail : List Char → Except Unit (List Char) :=
  fun _ => Except.error ()

/-- ASCII alphanumeric, a concrete instantiation of the abstract
`char::is_alphanumeric` parameter for witnesses. -/
def iaAscii : Char → Bool := Char.isAlphanum

/-- The sequence of byte chunks fed to the hasher, in the fixed order markup,
styling, script — with the `b"NO_SCRIPT"` sentinel chunk in place of an
absent script section (present-but-absent markup/styling feed nothing). -/
def fingerprintChunks (p : ParsedContent) : List (List Nat) :=
  (match p.markup with | some m => [utf8 m] | none => []) ++
  (match p.styling with | some s => [utf8 s] | none => []) ++
  [match p.script with | some s => utf8 s | none => noScriptBytes]

/-- A delimiter-tagged styling sub-block, as produced by the splitter. -/
inductive StyBlock where
  | css (content : List Char)
  | scss (content : List Char)
deriving DecidableEq, Repr

/-- The authored content of a styling sub-block. -/
def styContent : StyBlock → List Char
  | StyBlock.css c => c
  | StyBlock.scss c => c

/-- The delimiter-tagged text of a sub-block without its terminating
delimiter: `"/* CSS */\n{content}\n"` or `"/* SCSS */\n{content}\n"`. -/
def blockBody : StyBlock → List Char
  | StyBlock.css c => cssTag ++ nlL ++ c ++ nlL
  | StyBlock.scss c => scssTag ++ nlL ++ c ++ nlL

/-- The tagged text of a sub-block, exactly as `parse_breach_content` wraps
it. -/
def renderBlock (b : StyBlock) : List Char := blockBody b ++ eofTag

/-- A delimiter-tagged styling input built from sub-blocks, exactly as
`parse_breach_content` joins them (blank line between blocks). -/
def renderBlocks (bs : List StyBlock) : List Char := joinSep nn (bs.map renderBlock)

/-- What `process_styling_content` is claimed to produce for one sub-block:
the trimmed CSS text unchanged, or the compiled SCSS (falling back to the
trimmed raw SCSS on compiler failure). -/
def expectedBlock (compile : List Char → Except Unit (List Char)) : StyBlock → List Char
  | StyBlock.css c => trimL c
  | StyBlock.scss s =>
    match compile (trimL s) with
    | Except.ok compiled => compiled
    | Except.error _ => trimL s

/-- The pieces the delimiter split produces after the first block: each later
block keeps the preceding blank-line separator, and a final empty piece
follows the last delimiter. -/
def tailPieces : List StyBlock → List (List Char)
  | [] => [[]]
  | b :: bs => (nn ++ blockBody b) :: tailPieces bs

/-- Whether the two lists disagree at some position within their common
prefix length. -/
def mismatchWithin : List Char → List Char → Bool
  | p :: ps, c :: cs => (p != c) || mismatchWithin ps cs
  | _, _ => false

/-- Whether `pat` mismatches within every (nonempty-suffix) position of `s`. -/
def allDropsMismatch (pat : List Char) : List Char → Bool
  | [] => true
  | c :: t => mismatchWithin pat (c :: t) && allDropsMismatch pat t

/-- Number of (possibly overlapping) occurrences of `pat`; the patterns the
theorems count cannot overlap themselves, so this is the plain occurrence
count there. -/
def countSub (pat : List Char) : List Char → Nat
  | [] => 0
  | c :: t => if pat.isPrefixOf (c :: t) then countSub pat t + 1 else countSub pat t

/-- The claim's reading of a section marker: the first non-whitespace
character is the glyph `¦`, immediately followed by the (case-insensitive)
keyword, which is not continued by further alphanumeric characters. -/
def markerSpec (ia : Char → Bool) (line kw : List Char) : Prop :=
  ∃ pre u v, line = pre ++ '¦' :: (u ++ v) ∧ (∀ c ∈ pre, isRustWs c) ∧
    eqIgnoreAsciiCase u kw = true ∧ (v = [] ∨ ∃ c t, v = c :: t ∧ ia c = false)

/-- The six marker keywords. -/
def sectionKeywords : List (List Char) :=
  ["html".toList, "css".toList, "scss".toList, "js".toList, "ts".toList,
    "typescript".toList]

/-- The section selected by the last marker line of a prefix of lines
(starting from `cur`). -/
def activeAfter (ia : Char → Bool) (cur : SectionType) (pre : List (List Char)) :
    SectionType :=
  pre.foldl (fun c l => (lineSection ia l).getD c) cur

/-- The accumulator vector belonging to a section type. -/
def sectionLines : SectionType → SectionsAcc → List (List Char)
  | SectionType.none, _ => []
  | SectionType.markup, a => a.markupL
  | SectionType.cssStyling, a => a.cssL
  | SectionType.scssStyling, a => a.scssL
  | SectionType.script, a => a.scriptL

/-- The claim's description of a section's content: those lines, in document
order, that are not marker lines and whose most recent preceding marker (from
start state `cur`) selects section `S`. -/
def selectedLines (ia : Char → Bool) (cur S : SectionType) (ls : List (List Char)) :
    List (List Char) :=
  (List.range ls.length).filterMap fun i =>
    if (lineSection ia (ls.getD i [])).isNone ∧ activeAfter ia cur (ls.take i) = S ∧
        S ≠ SectionType.none
    then some (ls.getD i []) else none

/-- The accumulated (newline-joined) markup lines of `parse_breach_content`. -/
def markupAccum (ia : Char → Bool) (content : List Char) : List Char :=
  joinSep nlL (collect ia SectionType.none (breachLines content)).markupL

/-- The accumulated CSS styling lines of `parse_breach_content`. -/
def cssAccum (ia : Char → Bool) (content : List Char) : List Char :=
  joinSep nlL (collect ia SectionType.none (breachLines content)).cssL

/-- The accumulated SCSS styling lines of `parse_breach_content`. -/
def scssAccum (ia : Char → Bool) (content : List Char) : List Char :=
  joinSep nlL (collect ia SectionType.none (breachLines content)).scssL

/-- The accumulated script lines of `parse_breach_content`. -/
def scriptAccum (ia : Char → Bool) (content : List Char) : List Char :=
  joinSep nlL (collect ia SectionType.none (breachLines content)).scriptL

/- ### Theorems -/

/-- Claim C1: on a debounced reload with a successfully recomputed
`PreparedContent`, the snapshot is stored and a reload broadcast sent exactly
when the new fingerprint differs from the store's current fingerprint (the
watcher's `last_fingerprint`, which always equals the stored snapshot's
fingerprint: the invariant is established at start-up and preserved by every
step); with equal fingerprints the computed snapshot is discarded, the store
is untouched and nothing is broadcast. Moreover a broadcast can only ever
happen on such a differing-fingerprint reload. -/
theorem c1_publish_and_broadcast_iff_fingerprint_differs :
    (∀ (st : WatchState) (np : PreparedContent) (t now : Nat),
      watchInv st → st.pending = some t → debounceMs ≤ now - t →
      (((watchStep (Except.ok np) st WatchInput.tick now).2 = true ↔
          np.fingerprint ≠ st.store.fingerprint) ∧
        (np.fingerprint ≠ st.store.fingerprint →
          (watchStep (Except.ok np) st WatchInput.tick now).1 =
            ⟨np.fingerprint, np, none⟩) ∧
        (np.fingerprint = st.store.fingerprint →
          (watchStep (Except.ok np) st WatchInput.tick now).1 =
              { st with pending := none } ∧
            (watchStep (Except.ok np) st WatchInput.tick now).2 = false) ∧
        watchInv (watchStep (Except.ok np) st WatchInput.tick now).1)) ∧
    (∀ (load : Except Unit PreparedContent) (st : WatchState) (inp : WatchInput) (now : Nat),
      (watchStep load st inp now).2 = true →
      ∃ np t, load = Except.ok np ∧ inp = WatchInput.tick ∧ st.pending = some t ∧
        debounceMs ≤ now - t ∧ np.fingerprint ≠ st.lastFingerprint ∧
        (watchStep load st inp now).1.store = np) ∧
    (∀ p : PreparedContent, watchInv (initialWatchState p)) ∧
    (∀ (load : Except Unit PreparedContent) (st : WatchState) (inp : WatchInput) (now : Nat),
      watchInv st → watchInv (watchStep load st inp now).1) := by
  refine ⟨?_, ?_, ?_, ?_⟩
  · intro st np t now hinv hp hd
    rw [watchInv] at hinv
    simp only [watchStep, hp, if_pos hd]
    by_cases hne : np.fingerprint = st.store.fingerprint
    · simp [hne, hinv, watchInv]
    · have : np.fingerprint ≠ st.lastFingerprint := by rw [hinv]; exact hne
      simp [this, hne, watchInv]
  · intro load st inp now hb
    cases inp with
    | fileEvent m pm =>
      simp only [watchStep] at hb
      split at hb <;> simp_all
    | tick =>
      rcases hp : st.pending with _ | t
      · simp [watchStep, hp] at hb
      · by_cases hd : debounceMs ≤ now - t
        · rcases hl : load with e | np
          · simp [watchStep, hp, hd, hl] at hb
          · by_cases hne : np.fingerprint = st.lastFingerprint
            · simp [watchStep, hp, hd, hl, hne] at hb
            · exact ⟨np, t, rfl, rfl, rfl, hd, hne, by simp [watchStep, hp, hd, hne]⟩
        · simp [watchStep, hp, hd] at hb
  · intro p
    rfl
  · intro load st inp now hinv
    rw [watchInv] at hinv ⊢
    cases inp with
    | fileEvent m pm =>
      simp only [watchStep]
      split <;> simpa
    | tick =>
      simp only [watchStep]
      rcases st.pending with _ | t
      · simpa
      · by_cases hd : debounceMs ≤ now - t
        · simp only [if_pos hd]
          rcases load with e | np
          · exact hinv
          · dsimp only
            by_cases hne : np.fingerprint ≠ st.lastFingerprint
            · rw [if_pos hne]
            · rw [if_neg hne]
              exact hinv
        · simpa [hd]

/-- Witness for C1 at a concrete state and snapshot with differing
fingerprints. -/
theorem c1_witness :
    (watchInv (⟨5, ⟨⟨none, none, none⟩, none, 5⟩, some 3⟩ : WatchState) ∧
      (some 3 : Option Nat) = some 3 ∧ debounceMs ≤ 200 - 3) ∧
    (((watchStep (Except.ok ⟨⟨none, none, none⟩, none, 9⟩)
          ⟨5, ⟨⟨none, none, none⟩, none, 5⟩, some 3⟩ WatchInput.tick 200).2 = true ↔
        (9 : UInt64) ≠ (⟨⟨none, none, none⟩, none, 5⟩ : PreparedContent).fingerprint) ∧
      ((9 : UInt64) ≠ (⟨⟨none, none, none⟩, none, 5⟩ : PreparedContent).fingerprint →
        (watchStep (Except.ok ⟨⟨none, none, none⟩, none, 9⟩)
            ⟨5, ⟨⟨none, none, none⟩, none, 5⟩, some 3⟩ WatchInput.tick 200).1 =
          ⟨9, ⟨⟨none, none, none⟩, none, 9⟩, none⟩) ∧
      ((9 : UInt64) = (⟨⟨none, none, none⟩, none, 5⟩ : PreparedContent).fingerprint →
        (watchStep (Except.ok ⟨⟨none, none, none⟩, none, 9⟩)
            ⟨5, ⟨⟨none, none, none⟩, none, 5⟩, some 3⟩ WatchInput.tick 200).1 =
            { (⟨5, ⟨⟨none, none, none⟩, none, 5⟩, some 3⟩ : WatchState) with
                pending := none } ∧
          (watchStep (Except.ok ⟨⟨none, none, none⟩, none, 9⟩)
              ⟨5, ⟨⟨none, none, none⟩, none, 5⟩, some 3⟩ WatchInput.tick 200).2 = false) ∧
      watchInv (watchStep (Except.ok ⟨⟨none, none, none⟩, none, 9⟩)
          ⟨5, ⟨⟨none, none, none⟩, none, 5⟩, some 3⟩ WatchInput.tick 200).1) :=
  ⟨⟨rfl, rfl, by decide⟩,
    c1_publish_and_broadcast_iff_fingerprint_differs.1
      ⟨5, ⟨⟨none, none, none⟩, none, 5⟩, some 3⟩ ⟨⟨none, none, none⟩, none, 9⟩ 3 200
      rfl rfl (by decide)⟩

/-- Claim C7: when the debounced reload's `load_prepared_from_file` fails, the
store is not written, `last_fingerprint` is unchanged, no broadcast is sent,
and the pending-change timestamp is cleared (the watcher is idle again), so
the previously published snapshot keeps being served. -/
theorem c7_reload_error_keeps_last_snapshot :
    ∀ (st : WatchState) (t now : Nat),
      st.pending = some t → debounceMs ≤ now - t →
      watchStep (Except.error ()) st WatchInput.tick now =
        ({ st with pending := none }, false) := by
  intro st t now hp hd
  simp [watchStep, hp, hd]

/-- Witness for C7 at a concrete pending state. -/
theorem c7_witness :
    ((some 3 : Option Nat) = some 3 ∧ debounceMs ≤ 200 - 3) ∧
      watchStep (Except.error ()) ⟨5, ⟨⟨none, none, none⟩, none, 5⟩, some 3⟩
          WatchInput.tick 200 =
        ({ (⟨5, ⟨⟨none, none, none⟩, none, 5⟩, some 3⟩ : WatchState) with
            pending := none }, false) :=
  ⟨⟨rfl, by decide⟩,
    c7_reload_error_keeps_last_snapshot
      ⟨5, ⟨⟨none, none, none⟩, none, 5⟩, some 3⟩ 3 200 rfl (by decide)⟩

/-- Claim C8: routing behaviour per path. `/` and `/index.html` serve the
injected markup or 404; `/style.css` the final styling or 404; `/script.js`
the raw script section or 404; `/favicon.ico` always 204; every other path
404. -/
theorem c8_http_routes :
    ∀ p : PreparedContent,
      (∀ c, p.html_injected = some c →
        handleRequest p ("/".toList) = ⟨200, c⟩ ∧
          handleRequest p ("/index.html".toList) = ⟨200, c⟩) ∧
      (p.html_injected = none →
        (handleRequest p ("/".toList)).status = 404 ∧
          (handleRequest p ("/index.html".toList)).status = 404) ∧
      (∀ c, p.parsed.styling = some c →
        handleRequest p ("/style.css".toList) = ⟨200, c⟩) ∧
      (p.parsed.styling = none →
        (handleRequest p ("/style.css".toList)).status = 404) ∧
      (∀ c, p.parsed.script = some c →
        handleRequest p ("/script.js".toList) = ⟨200, c⟩) ∧
      (p.parsed.script = none →
        (handleRequest p ("/script.js".toList)).status = 404) ∧
      (handleRequest p ("/favicon.ico".toList)).status = 204 ∧
      (∀ path, path ∉ [("/".toList), ("/index.html".toList), ("/style.css".toList),
          ("/script.js".toList), ("/favicon.ico".toList)] →
        (handleRequest p path).status = 404) := by
  intro p
  refine ⟨?_, ?_, ?_, ?_, ?_, ?_, ?_, ?_⟩
  · intro c h
    constructor <;>
      simp [handleRequest, indexHandler, serve_content, h]
  · intro h
    constructor <;>
      simp [handleRequest, indexHandler, serve_content, h]
  · intro c h
    simp [handleRequest, styleCssHandler, serve_content, h]
  · intro h
    simp [handleRequest, styleCssHandler, serve_content, h]
  · intro c h
    simp [handleRequest, scriptJsHandler, serve_content, h]
  · intro h
    simp [handleRequest, scriptJsHandler, serve_content, h]
  · simp [handleRequest, faviconHandler]
  · intro path h
    have h1 : path ≠ "/".toList := by intro e; exact h (by simp [e])
    have h2 : path ≠ "/index.html".toList := by intro e; exact h (by simp [e])
    have h3 : path ≠ "/style.css".toList := by intro e; exact h (by simp [e])
    have h4 : path ≠ "/script.js".toList := by intro e; exact h (by simp [e])
    have h5 : path ≠ "/favicon.ico".toList := by intro e; exact h (by simp [e])
    have hor : ¬(path = "/".toList ∨ path = "/index.html".toList) := by
      intro e
      rcases e with e | e
      · exact h1 e
      · exact h2 e
    simp only [handleRequest]
    rw [if_neg hor, if_neg h3, if_neg h4, if_neg h5]
    rfl

/-- Witness for C8: a snapshot with injected markup present serves it at `/`,
and one without markup yields 404 there. -/
theorem c8_witness :
    ((⟨⟨none, none, none⟩, some ("h".toList), 0⟩ : PreparedContent).html_injected =
        some ("h".toList) ∧
      (⟨⟨none, none, none⟩, none, 0⟩ : PreparedContent).html_injected = none) ∧
    (handleRequest (⟨⟨none, none, none⟩, some ("h".toList), 0⟩ : PreparedContent)
        ("/".toList) = ⟨200, "h".toList⟩ ∧
      (handleRequest (⟨⟨none, none, none⟩, none, 0⟩ : PreparedContent)
          ("/".toList)).status = 404) :=
  ⟨⟨rfl, rfl⟩,
    ((c8_http_routes ⟨⟨none, none, none⟩, some ("h".toList), 0⟩).1 ("h".toList) rfl).1,
    ((c8_http_routes ⟨⟨none, none, none⟩, none, 0⟩).2.1 rfl).1⟩

/-- Claim C10: `prepare` produces injected markup exactly when the parsed
markup section is present (which `prepare` leaves unchanged); with markup
absent the root paths serve 404 while present styling and script sections
are still served at their own paths. -/
theorem c10_injected_iff_markup :
    ∀ (w : UInt64 → List Nat → UInt64) (compile : List Char → Except Unit (List Char))
      (pc : ParsedContent),
      ((prepare w compile pc).html_injected.isSome ↔
        (prepare w compile pc).parsed.markup.isSome) ∧
      (prepare w compile pc).parsed.markup = pc.markup ∧
      (pc.markup = none →
        (handleRequest (prepare w compile pc) ("/".toList)).status = 404 ∧
        (handleRequest (prepare w compile pc) ("/index.html".toList)).status = 404 ∧
        (∀ s, (prepare w compile pc).parsed.styling = some s →
          handleRequest (prepare w compile pc) ("/style.css".toList) = ⟨200, s⟩) ∧
        (∀ s, (prepare w compile pc).parsed.script = some s →
          handleRequest (prepare w compile pc) ("/script.js".toList) = ⟨200, s⟩)) := by
  intro w compile pc
  refine ⟨?_, ?_, ?_⟩
  · rcases hm : pc.markup with _ | m <;> simp [prepare, hm]
  · simp [prepare]
  · intro hm
    refine ⟨?_, ?_, ?_, ?_⟩
    · simp [handleRequest, indexHandler, serve_content, prepare, hm]
    · simp [handleRequest, indexHandler, serve_content, prepare, hm]
    · intro s hs
      simp [handleRequest, styleCssHandler, serve_content, hs]
    · intro s hs
      simp [handleRequest, scriptJsHandler, serve_content, hs]

/-- Witness for C10: markup absent, styling present — root is 404 while the
styling is served at `/style.css`. -/
theorem c10_witness :
    ((⟨none, some ("/* CSS */\nbody\x7bcolor:red\x7d\n/* EOF */".toList), none⟩ :
        ParsedContent).markup = none) ∧
    ((prepare wDemo compileOk
        ⟨none, some ("/* CSS */\nbody\x7bcolor:red\x7d\n/* EOF */".toList), none⟩).html_injected.isSome ↔
      (prepare wDemo compileOk
        ⟨none, some ("/* CSS */\nbody\x7bcolor:red\x7d\n/* EOF */".toList), none⟩).parsed.markup.isSome) ∧
    (handleRequest (prepare wDemo compileOk
        ⟨none, some ("/* CSS */\nbody\x7bcolor:red\x7d\n/* EOF */".toList), none⟩)
        ("/".toList)).status = 404 :=
  ⟨rfl,
    (c10_injected_iff_markup wDemo compileOk
      ⟨none, some ("/* CSS */\nbody\x7bcolor:red\x7d\n/* EOF */".toList), none⟩).1,
    ((c10_injected_iff_markup wDemo compileOk
      ⟨none, some ("/* CSS */\nbody\x7bcolor:red\x7d\n/* EOF */".toList), none⟩).2.2 rfl).1⟩

/-- The fingerprint is the fold of the hash update function over the chunk
sequence. -/
theorem fingerprintOf_eq_foldl (w : UInt64 → List Nat → UInt64) (p : ParsedContent) :
    fingerprintOf w p = List.foldl w 0 (fingerprintChunks p) := by
  rcases p with ⟨m, s, sc⟩
  rcases m with _ | m <;> rcases s with _ | s <;> rcases sc with _ | sc <;>
    simp [fingerprintOf, fingerprintChunks]

/-- `prepare` stores exactly the fingerprint of its own final parsed content. -/
theorem prepare_fingerprint_eq (w : UInt64 → List Nat → UInt64)
    (compile : List Char → Except Unit (List Char)) (pc : ParsedContent) :
    (prepare w compile pc).fingerprint = fingerprintOf w (prepare w compile pc).parsed := by
  simp [prepare]

/-- Claim C6: the fingerprint is the 64-bit hash of the final markup bytes,
then styling bytes, then script bytes in that fixed order, with the
`b"NO_SCRIPT"` sentinel chunk fed in place of an absent script section (so
"no script" and "empty script" feed different chunk sequences); it is a pure
function of the three final artifacts. Stated for every hash update function
`w`, hence in particular for `FxHasher64`. -/
theorem c6_fingerprint_fixed_order_and_sentinel :
    ∀ (w : UInt64 → List Nat → UInt64) (compile : List Char → Except Unit (List Char))
      (pc : ParsedContent),
      ((prepare w compile pc).fingerprint =
        List.foldl w 0 (fingerprintChunks (prepare w compile pc).parsed)) ∧
      (∀ q : ParsedContent,
        (prepare w compile pc).parsed.markup = q.markup →
        (prepare w compile pc).parsed.styling = q.styling →
        (prepare w compile pc).parsed.script = q.script →
        fingerprintOf w q = (prepare w compile pc).fingerprint) ∧
      (∀ m s : Option (List Char),
        fingerprintChunks ⟨m, s, none⟩ ≠ fingerprintChunks ⟨m, s, some []⟩) := by
  intro w compile pc
  refine ⟨?_, ?_, ?_⟩
  · rw [prepare_fingerprint_eq, fingerprintOf_eq_foldl]
  · intro q h1 h2 h3
    rw [prepare_fingerprint_eq]
    rcases q with ⟨qm, qs, qsc⟩
    dsimp at h1 h2 h3
    rw [← h1, ← h2, ← h3]
  · intro m s he
    rcases m with _ | m <;> rcases s with _ | s <;>
      simp [fingerprintChunks] at he <;> exact absurd he (by decide)

/-- Witness for C6 with the demo hasher and concrete content. -/
theorem c6_witness :
    ((prepare wDemo compileOk ⟨some ("m".toList), none, none⟩).parsed.markup =
        (⟨some ("m".toList), none, none⟩ : ParsedContent).markup ∧
      (prepare wDemo compileOk ⟨some ("m".toList), none, none⟩).parsed.styling =
        (⟨some ("m".toList), none, none⟩ : ParsedContent).styling ∧
      (prepare wDemo compileOk ⟨some ("m".toList), none, none⟩).parsed.script =
        (⟨some ("m".toList), none, none⟩ : ParsedContent).script) ∧
    fingerprintOf wDemo ⟨some ("m".toList), none, none⟩ =
      (prepare wDemo compileOk ⟨some ("m".toList), none, none⟩).fingerprint :=
  ⟨⟨rfl, rfl, rfl⟩,
    (c6_fingerprint_fixed_order_and_sentinel wDemo compileOk
        ⟨some ("m".toList), none, none⟩).2.1
      ⟨some ("m".toList), none, none⟩ rfl rfl rfl⟩

/- ### Whitespace-trimming helper lemmas -/

/-- `trimStartL` drops an all-whitespace prefix. -/
theorem trimStartL_ws_append {w : List Char} (hw : ∀ c ∈ w, isRustWs c)
    (x : List Char) : trimStartL (w ++ x) = trimStartL x := by
  rw [trimStartL, trimStartL, List.dropWhile_append_of_pos hw]

/-- `trimStartL` keeps a list whose head is not whitespace. -/
theorem trimStartL_no_ws_head {c : Char} (hc : ¬ isRustWs c) (x : List Char) :
    trimStartL (c :: x) = c :: x := by
  simp [trimStartL, List.dropWhile, hc]

/-- `trimStartL` is empty exactly on all-whitespace input. -/
theorem trimStartL_eq_nil_iff {s : List Char} :
    trimStartL s = [] ↔ ∀ c ∈ s, isRustWs c := by
  simp [trimStartL, List.dropWhile_eq_nil_iff]

/-- `trimEndL` is empty exactly on all-whitespace input. -/
theorem trimEndL_eq_nil_iff {s : List Char} :
    trimEndL s = [] ↔ ∀ c ∈ s, isRustWs c := by
  rw [trimEndL]
  simp [List.dropWhile_eq_nil_iff]

/-- `trimEndL` drops an all-whitespace suffix. -/
theorem trimEndL_append_ws {w : List Char} (hw : ∀ c ∈ w, isRustWs c)
    (x : List Char) : trimEndL (x ++ w) = trimEndL x := by
  rw [trimEndL, trimEndL, List.reverse_append,
    List.dropWhile_append_of_pos (by simpa using hw)]

/-- Splitting `trimEndL` over an append. -/
theorem trimEndL_append (a b : List Char) :
    trimEndL (a ++ b) = if trimEndL b = [] then trimEndL a else a ++ trimEndL b := by
  by_cases hb : trimEndL b = []
  · rw [if_pos hb]
    exact trimEndL_append_ws (trimEndL_eq_nil_iff.mp hb) a
  · rw [if_neg hb, trimEndL, List.reverse_append, List.dropWhile_append]
    have hne : (b.reverse.dropWhile isRustWs).isEmpty = false := by
      rcases h : b.reverse.dropWhile isRustWs with _ | ⟨c, t⟩
      · exact absurd (by rw [trimEndL, h]; rfl) hb
      · rfl
    simp [hne, trimEndL]

/-- `trimL` is empty exactly on all-whitespace input. -/
theorem trimL_eq_nil_iff {s : List Char} :
    trimL s = [] ↔ ∀ c ∈ s, isRustWs c := by
  rw [trimL, trimEndL_eq_nil_iff]
  constructor
  · intro h c hc
    rcases List.mem_append.mp
        ((List.takeWhile_append_dropWhile (p := isRustWs) (l := s)) ▸ hc) with h1 | h1
    · exact List.mem_takeWhile_imp h1
    · exact h c h1
  · intro h c hc
    exact h c ((List.dropWhile_sublist isRustWs).subset hc)

/-- Claim C4, corrected: a section whose accumulated content is
all-whitespace is reported as absent (`None`) rather than as an empty or
whitespace string; but a present markup/script section is returned with its
accumulated newline-joined content verbatim — it is not trimmed. The styling
section is absent exactly when both the CSS and SCSS accumulations are
all-whitespace. -/
theorem c4_sections_absent_iff_whitespace_but_untrimmed :
    ∀ (ia : Char → Bool) (content : List Char),
      ((parse_breach_content ia content).markup = none ↔
        trimL (markupAccum ia content) = []) ∧
      ((parse_breach_content ia content).markup = none ∨
        (parse_breach_content ia content).markup = some (markupAccum ia content)) ∧
      ((parse_breach_content ia content).script = none ↔
        trimL (scriptAccum ia content) = []) ∧
      ((parse_breach_content ia content).script = none ∨
        (parse_breach_content ia content).script = some (scriptAccum ia content)) ∧
      ((parse_breach_content ia content).styling = none ↔
        (trimL (cssAccum ia content) = [] ∧ trimL (scssAccum ia content) = [])) := by
  intro ia content
  rw [parse_breach_content, markupAccum, cssAccum, scssAccum, scriptAccum]
  by_cases hm : trimL (joinSep nlL (collect ia SectionType.none (breachLines content)).markupL) = [] <;>
    by_cases hc : trimL (joinSep nlL (collect ia SectionType.none (breachLines content)).cssL) = [] <;>
    by_cases hs : trimL (joinSep nlL (collect ia SectionType.none (breachLines content)).scssL) = [] <;>
    by_cases hj : trimL (joinSep nlL (collect ia SectionType.none (breachLines content)).scriptL) = [] <;>
    simp [hm, hc, hs, hj]

/-- Counterexample to C4 as stated: the input `"¦html\n x"` yields the markup
section `" x"`, which has leading whitespace — the splitter's output section
is not trimmed. -/
theorem c4_counterexample_markup_not_trimmed :
    (parse_breach_content iaAscii ("¦html\n x".toList)).markup = some (" x".toList) ∧
      trimL (" x".toList) ≠ " x".toList := by
  constructor
  · rfl
  · decide

/-- Claim C2 fails on the code: for
`<html><head><title>Foo</title></head><body></body></html>` with styling
present, `extract_and_remove_title` does extract and remove the title with
its text `Foo`, but `inject_css_link` re-inserts the saved title only in the
two branches that synthesize a new head; here `</head>` exists, so the
stylesheet link is injected (exactly once) while the title — and even its
text `Foo` — appears zero times in the output instead of exactly once. This
contradicts the claim and the function's own doc comment ("Preserves the
title if present"). -/
theorem c2_title_dropped_despite_doc :
    extract_and_remove_title
        ("<html><head><title>Foo</title></head><body></body></html>".toList) =
      ("<html><head></head><body></body></html>".toList, some ("Foo".toList)) ∧
    countSub ("<title>Foo</title>".toList)
      (inject_links_once
        ("<html><head><title>Foo</title></head><body></body></html>".toList)
        true false 0) = 0 ∧
    countSub ("Foo".toList)
      (inject_links_once
        ("<html><head><title>Foo</title></head><body></body></html>".toList)
        true false 0) = 0 ∧
    countSub (linkTagFor 0)
      (inject_links_once
        ("<html><head><title>Foo</title></head><body></body></html>".toList)
        true false 0) = 1 := by
  refine ⟨by decide, by decide, by decide, by decide⟩

/- ### Marker characterization lemmas (C3) -/

/-- `eqIgnoreAsciiCase u []` holds only for `u = []`. -/
theorem eqIC_nil_right_iff {u : List Char} :
    eqIgnoreAsciiCase u [] = true ↔ u = [] := by
  cases u <;> simp [eqIgnoreAsciiCase]

/-- ASCII lowercasing fixes lowercase letters. -/
theorem asciiLower_eq_self_of_lower {k : Char} (h : 'a' ≤ k ∧ k ≤ 'z') :
    asciiLower k = k := by
  rw [asciiLower, if_neg]
  intro hAZ
  exact absurd (le_trans h.1 hAZ.2) (by decide)

/-- A character whose ASCII lowercase form is a lowercase letter is itself an
ASCII letter. -/
theorem letter_of_asciiLower_eq {c k : Char} (hk : 'a' ≤ k ∧ k ≤ 'z')
    (h : asciiLower c = k) :
    ('a' ≤ c ∧ c ≤ 'z') ∨ ('A' ≤ c ∧ c ≤ 'Z') := by
  rw [asciiLower] at h
  split at h
  · right
    assumption
  · left
    exact h ▸ hk

/-- The maximal alphanumeric run after the glyph equals the keyword (up to
ASCII case) exactly when the text starts with a case variant of the keyword
not continued by an alphanumeric character — for keywords made of lowercase
letters, and any alphanumeric predicate that accepts ASCII letters. -/
theorem eqIC_takeWhile_iff (ia : Char → Bool)
    (hAlpha : ∀ c : Char, ('a' ≤ c ∧ c ≤ 'z') ∨ ('A' ≤ c ∧ c ≤ 'Z') → ia c = true) :
    ∀ (kw rest : List Char), (∀ c ∈ kw, 'a' ≤ c ∧ c ≤ 'z') →
      (eqIgnoreAsciiCase (rest.takeWhile ia) kw = true ↔
        ∃ u v, rest = u ++ v ∧ eqIgnoreAsciiCase u kw = true ∧
          (v = [] ∨ ∃ c t, v = c :: t ∧ ia c = false)) := by
  intro kw
  induction kw with
  | nil =>
    intro rest _
    constructor
    · intro h
      rcases rest with _ | ⟨c, t⟩
      · exact ⟨[], [], rfl, rfl, Or.inl rfl⟩
      · by_cases hic : ia c
        · rw [List.takeWhile_cons_of_pos hic] at h
          exact absurd h (by simp [eqIgnoreAsciiCase])
        · exact ⟨[], c :: t, rfl, rfl, Or.inr ⟨c, t, rfl, by simpa using hic⟩⟩
    · rintro ⟨u, v, heq, hu, hv⟩
      rw [eqIC_nil_right_iff.mp hu] at heq
      subst heq
      rcases hv with hv | ⟨c, t, hv, hic⟩
      · subst hv
        rfl
      · subst hv
        rw [List.takeWhile_cons_of_neg (by simp [hic])]
        rfl
  | cons k kw' ih =>
    intro rest hkw
    have hk : 'a' ≤ k ∧ k ≤ 'z' := hkw k (by simp)
    have hkw' : ∀ c ∈ kw', 'a' ≤ c ∧ c ≤ 'z' := fun c hc => hkw c (by simp [hc])
    rcases rest with _ | ⟨c, t⟩
    · constructor
      · intro h
        exact absurd h (by simp [eqIgnoreAsciiCase])
      · rintro ⟨u, v, heq, hu, _⟩
        rcases List.append_eq_nil.mp heq.symm with ⟨hu0, _⟩
        subst hu0
        exact absurd hu (by simp [eqIgnoreAsciiCase])
    · by_cases hic : ia c
      · rw [List.takeWhile_cons_of_pos hic]
        by_cases hck : asciiLower c = asciiLower k
        · have hlhs : ∀ x, eqIgnoreAsciiCase (c :: x) (k :: kw') = eqIgnoreAsciiCase x kw' := by
            intro x
            simp [eqIgnoreAsciiCase, hck]
          rw [hlhs]
          rw [ih t hkw']
          constructor
          · rintro ⟨u', v, heq, hu, hv⟩
            exact ⟨c :: u', v, by simp [heq], by simp [eqIgnoreAsciiCase, hck, hu], hv⟩
          · rintro ⟨u, v, heq, hu, hv⟩
            rcases u with _ | ⟨c0, u'⟩
            · exact absurd hu (by simp [eqIgnoreAsciiCase])
            · rw [List.cons_append] at heq
              injection heq with h1 h2
              rw [← h1] at hu
              rw [hlhs] at hu
              exact ⟨u', v, h2, hu, hv⟩
        · constructor
          · intro h
            exact absurd h (by simp [eqIgnoreAsciiCase, hck])
          · rintro ⟨u, v, heq, hu, hv⟩
            rcases u with _ | ⟨c0, u'⟩
            · exact absurd hu (by simp [eqIgnoreAsciiCase])
            · rw [List.cons_append] at heq
              injection heq with h1 h2
              rw [← h1] at hu
              exact absurd hu (by simp [eqIgnoreAsciiCase, hck])
      · rw [List.takeWhile_cons_of_neg (by simp [hic])]
        constructor
        · intro h
          exact absurd h (by simp [eqIgnoreAsciiCase])
        · rintro ⟨u, v, heq, hu, hv⟩
          rcases u with _ | ⟨c0, u'⟩
          · exact absurd hu (by simp [eqIgnoreAsciiCase])
          · rw [List.cons_append] at heq
            injection heq with h1 h2
            rw [← h1] at hu
            have hck : asciiLower c = asciiLower k := by
              by_contra hne
              exact absurd hu (by simp [eqIgnoreAsciiCase, hne])
            rw [asciiLower_eq_self_of_lower hk] at hck
            have := hAlpha c (letter_of_asciiLower_eq hk hck)
            simp [this] at hic

/-- The glyph `¦` is not whitespace. -/
theorem broken_bar_not_ws : isRustWs '¦' = false := by decide

/-- `starts_with_section_marker` agrees with the claim's marker description
for every lowercase-letter keyword. -/
theorem starts_with_section_marker_iff (ia : Char → Bool)
    (hAlpha : ∀ c : Char, ('a' ≤ c ∧ c ≤ 'z') ∨ ('A' ≤ c ∧ c ≤ 'Z') → ia c = true)
    (kw : List Char) (hkw : ∀ c ∈ kw, 'a' ≤ c ∧ c ≤ 'z') (line : List Char) :
    starts_with_section_marker ia line kw = true ↔ markerSpec ia line kw := by
  constructor
  · intro h
    rw [starts_with_section_marker] at h
    rcases hts : trimStartL line with _ | ⟨c, rest⟩
    · rw [hts] at h
      exact absurd h (by simp)
    · rw [hts] at h
      have hc : c = '¦' := by
        by_contra hne
        simp [hne] at h
      subst hc
      have heqic : eqIgnoreAsciiCase (rest.takeWhile ia) kw = true := by
        simpa using h
      obtain ⟨u, v, hrest, hu, hv⟩ := (eqIC_takeWhile_iff ia hAlpha kw rest hkw).mp heqic
      refine ⟨line.takeWhile isRustWs, u, v, ?_, ?_, hu, hv⟩
      · conv_lhs => rw [← List.takeWhile_append_dropWhile (p := isRustWs) (l := line)]
        rw [← trimStartL, hts, hrest]
      · intro c hc
        exact List.mem_takeWhile_imp hc
  · rintro ⟨pre, u, v, heq, hpre, hu, hv⟩
    rw [starts_with_section_marker, heq, trimStartL_ws_append hpre,
      trimStartL_no_ws_head (by simp [broken_bar_not_ws])]
    have : eqIgnoreAsciiCase ((u ++ v).takeWhile ia) kw = true :=
      (eqIC_takeWhile_iff ia hAlpha kw (u ++ v) hkw).mpr ⟨u, v, rfl, hu, hv⟩
    simpa using this

/- ### Section-membership lemmas (C3) -/

/-- Pushing a non-marker line extends exactly the current section's vector. -/
theorem sectionLines_collect_cons_none {ia : Char → Bool} {l : List Char}
    {ls : List (List Char)} (h : lineSection ia l = none) (cur S : SectionType) :
    sectionLines S (collect ia cur (l :: ls)) =
      (if cur = S ∧ S ≠ SectionType.none then l :: sectionLines S (collect ia cur ls)
       else sectionLines S (collect ia cur ls)) := by
  rcases cur <;> rcases S <;> simp [collect, h, sectionLines]

/-- A marker line is consumed and switches the section. -/
theorem collect_cons_marker {ia : Char → Bool} {l : List Char} {s : SectionType}
    {ls : List (List Char)} (h : lineSection ia l = some s) (cur : SectionType) :
    collect ia cur (l :: ls) = collect ia s ls := by
  simp [collect, h]

/-- The loop of `parse_breach_content` collects, for every section, exactly
the non-marker lines whose most recent preceding marker selects that
section. -/
theorem collect_eq_selectedLines (ia : Char → Bool) :
    ∀ (S : SectionType) (ls : List (List Char)) (cur : SectionType),
      sectionLines S (collect ia cur ls) = selectedLines ia cur S ls := by
  intro S ls
  induction ls with
  | nil =>
    intro cur
    cases S <;> rfl
  | cons l ls ih =>
    intro cur
    rw [selectedLines]
    simp only [List.length_cons, List.range_succ_eq_map, List.filterMap_cons,
      List.filterMap_map]
    rcases hls : lineSection ia l with _ | s
    · -- non-marker line: it is emitted exactly into the current section
      have hhead : (if (lineSection ia ((l :: ls).getD 0 [])).isNone ∧
          activeAfter ia cur ((l :: ls).take 0) = S ∧ S ≠ SectionType.none
          then some ((l :: ls).getD 0 []) else none) =
          if cur = S ∧ S ≠ SectionType.none then some l else none := by
        simp [hls, activeAfter]
      have htl : ((List.range ls.length).filterMap
          ((fun i => if (lineSection ia ((l :: ls).getD i [])).isNone ∧
              activeAfter ia cur ((l :: ls).take i) = S ∧ S ≠ SectionType.none
            then some ((l :: ls).getD i []) else none) ∘ Nat.succ)) =
          selectedLines ia cur S ls := by
        apply List.filterMap_congr
        intro i _
        have hact : activeAfter ia cur ((l :: ls).take (i + 1)) =
            activeAfter ia cur (ls.take i) := by
          rw [List.take_succ_cons, activeAfter, List.foldl_cons, hls]
          rfl
        simp only [Function.comp, List.getD_cons_succ, hact]
      rw [hhead, htl, sectionLines_collect_cons_none hls cur S]
      by_cases hcs : cur = S ∧ S ≠ SectionType.none
      · rw [if_pos hcs, if_pos hcs, ih cur]
      · rw [if_neg hcs, if_neg hcs, ih cur]
    · -- marker line: consumed, switches the active section
      have hhead : (if (lineSection ia ((l :: ls).getD 0 [])).isNone ∧
          activeAfter ia cur ((l :: ls).take 0) = S ∧ S ≠ SectionType.none
          then some ((l :: ls).getD 0 []) else none) = none := by
        simp [hls]
      have htl : ((List.range ls.length).filterMap
          ((fun i => if (lineSection ia ((l :: ls).getD i [])).isNone ∧
              activeAfter ia cur ((l :: ls).take i) = S ∧ S ≠ SectionType.none
            then some ((l :: ls).getD i []) else none) ∘ Nat.succ)) =
          selectedLines ia s S ls := by
        apply List.filterMap_congr
        intro i _
        have hact : activeAfter ia cur ((l :: ls).take (i + 1)) =
            activeAfter ia s (ls.take i) := by
          rw [List.take_succ_cons, activeAfter, List.foldl_cons, hls]
          rfl
        simp only [Function.comp, List.getD_cons_succ, hact]
      rw [hhead, htl, collect_cons_marker hls cur, ih s]

/-- `lineSection` recognizes a line exactly when one of the six keyword
checks fires. -/
theorem lineSection_isSome_iff (ia : Char → Bool) (l : List Char) :
    (lineSection ia l).isSome =
      (starts_with_section_marker ia l ("html".toList) ||
        starts_with_section_marker ia l ("css".toList) ||
        starts_with_section_marker ia l ("scss".toList) ||
        starts_with_section_marker ia l ("js".toList) ||
        starts_with_section_marker ia l ("ts".toList) ||
        starts_with_section_marker ia l ("typescript".toList)) := by
  rw [lineSection]
  split_ifs with h1 h2 h3 h4 <;> simp_all

/-- Claim C3: (a) a line is a section marker exactly when, after leading
whitespace, the glyph `¦` is immediately followed by one of the
case-insensitive keywords html/css/scss/js/ts/typescript (not continued by a
further alphanumeric character, which is how the code reads "followed by the
keyword"); (b) each section collects exactly the non-marker lines whose most
recent preceding marker names it, in document order — so marker lines are
consumed, lines before the first marker are discarded, and repeated blocks of
one type append in order. Stated for any alphanumeric predicate that accepts
ASCII letters, as `char::is_alphanumeric` does. -/
theorem c3_marker_lines_and_section_membership :
    ∀ ia : Char → Bool,
      (∀ c : Char, ('a' ≤ c ∧ c ≤ 'z') ∨ ('A' ≤ c ∧ c ≤ 'Z') → ia c = true) →
      (∀ line : List Char,
        ((lineSection ia line).isSome ↔
          ∃ kw ∈ sectionKeywords, markerSpec ia line kw)) ∧
      (∀ (content : List Char) (S : SectionType),
        sectionLines S (collect ia SectionType.none (breachLines content)) =
          selectedLines ia SectionType.none S (breachLines content)) := by
  intro ia hAlpha
  constructor
  · intro line
    rw [show ((lineSection ia line).isSome ↔
        ∃ kw ∈ sectionKeywords, markerSpec ia line kw) =
        ((lineSection ia line).isSome = true ↔
        ∃ kw ∈ sectionKeywords, markerSpec ia line kw) from rfl]
    rw [lineSection_isSome_iff]
    constructor
    · intro h
      simp only [Bool.or_eq_true] at h
      rcases h with ((((h | h) | h) | h) | h) | h
      · exact ⟨"html".toList, by simp [sectionKeywords],
          (starts_with_section_marker_iff ia hAlpha _ (by decide) line).mp h⟩
      · exact ⟨"css".toList, by simp [sectionKeywords],
          (starts_with_section_marker_iff ia hAlpha _ (by decide) line).mp h⟩
      · exact ⟨"scss".toList, by simp [sectionKeywords],
          (starts_with_section_marker_iff ia hAlpha _ (by decide) line).mp h⟩
      · exact ⟨"js".toList, by simp [sectionKeywords],
          (starts_with_section_marker_iff ia hAlpha _ (by decide) line).mp h⟩
      · exact ⟨"ts".toList, by simp [sectionKeywords],
          (starts_with_section_marker_iff ia hAlpha _ (by decide) line).mp h⟩
      · exact ⟨"typescript".toList, by simp [sectionKeywords],
          (starts_with_section_marker_iff ia hAlpha _ (by decide) line).mp h⟩
    · rintro ⟨kw, hmem, hms⟩
      simp only [sectionKeywords, List.mem_cons, List.not_mem_nil, or_false] at hmem
      rcases hmem with h | h | h | h | h | h <;>
        (subst h
         have hsw := (starts_with_section_marker_iff ia hAlpha _ (by decide) line).mpr hms
         simp only [Bool.or_eq_true]
         simp at hsw ⊢
         tauto)
  · intro content S
    exact collect_eq_selectedLines ia S (breachLines content) SectionType.none

/-- `Char.isAlphanum` accepts ASCII letters. -/
theorem iaAscii_accepts_letters :
    ∀ c : Char, ('a' ≤ c ∧ c ≤ 'z') ∨ ('A' ≤ c ∧ c ≤ 'Z') → iaAscii c = true := by
  intro c h
  rcases h with ⟨h1, h2⟩ | ⟨h1, h2⟩
  · have hl : c.isLower = true := by
      rw [Char.isLower]
      have e1 : (97 : UInt32) ≤ c.val := h1
      have e2 : c.val ≤ (122 : UInt32) := h2
      simp [e1, e2]
    simp [iaAscii, Char.isAlphanum, Char.isAlpha, hl]
  · have hu : c.isUpper = true := by
      rw [Char.isUpper]
      have e1 : (65 : UInt32) ≤ c.val := h1
      have e2 : c.val ≤ (90 : UInt32) := h2
      simp [e1, e2]
    simp [iaAscii, Char.isAlphanum, Char.isAlpha, hu]

/-- Witness for C3 with `Char.isAlphanum` and the line `"  ¦HTML"`. -/
theorem c3_witness :
    (∀ c : Char, ('a' ≤ c ∧ c ≤ 'z') ∨ ('A' ≤ c ∧ c ≤ 'Z') → iaAscii c = true) ∧
    ((lineSection iaAscii ("  ¦HTML".toList)).isSome ↔
      ∃ kw ∈ sectionKeywords, markerSpec iaAscii ("  ¦HTML".toList) kw) :=
  ⟨iaAscii_accepts_letters,
    (c3_marker_lines_and_section_membership iaAscii iaAscii_accepts_letters).1
      ("  ¦HTML".toList)⟩

/- ### Delimiter-split lemmas (C5) -/

/-- A mismatch within the common prefix rules out prefix-hood for any
continuation. -/
theorem mismatchWithin_not_prefixOf :
    ∀ {pat s : List Char}, mismatchWithin pat s = true →
      ∀ tail, pat.isPrefixOf (s ++ tail) = false := by
  intro pat
  induction pat with
  | nil => intro s h; simp [mismatchWithin] at h
  | cons p ps ih =>
    intro s h tail
    rcases s with _ | ⟨c, cs⟩
    · simp [mismatchWithin] at h
    · rw [mismatchWithin] at h
      rcases Bool.or_eq_true_iff.mp h with h | h
      · have : ¬ p = c := by simpa using h
        simp [List.cons_append, List.isPrefixOf, this]
      · simp [List.cons_append, List.isPrefixOf, ih h tail]

/-- `allDropsMismatch` rules out an occurrence starting anywhere inside
`s`, for any continuation. -/
theorem allDropsMismatch_not_prefixOf :
    ∀ {s : List Char}, allDropsMismatch eofTag s = true →
      ∀ j, j < s.length → ∀ tail, eofTag.isPrefixOf (s.drop j ++ tail) = false := by
  intro s
  induction s with
  | nil => intro _ j hj; simp at hj
  | cons c t ih =>
    intro h j hj tail
    rw [allDropsMismatch, Bool.and_eq_true] at h
    rcases j with _ | j
    · exact mismatchWithin_not_prefixOf h.1 tail
    · exact ih h.2 j (by simpa using hj) tail

/-- One non-matching character is consumed into the accumulator. -/
theorem splitEofAux_step {c : Char} {t : List Char}
    (h : eofTag.isPrefixOf (c :: t) = false) (acc : List Char) :
    splitEofAux acc (c :: t) = splitEofAux (c :: acc) t := by
  rw [splitEofAux, if_neg (by simp [h])]

/-- At a delimiter, the accumulated piece is emitted and the scan restarts
after the delimiter. -/
theorem splitEofAux_emit (acc rest : List Char) :
    splitEofAux acc (eofTag ++ rest) = acc.reverse :: splitEofAux [] rest := by
  have hpre : eofTag.isPrefixOf ('/' :: ("* EOF */".toList ++ rest)) = true :=
    List.isPrefixOf_iff_prefix.mpr (List.prefix_append _ _)
  rw [show eofTag ++ rest = '/' :: ("* EOF */".toList ++ rest) from rfl]
  rw [splitEofAux, if_pos hpre]
  have hd : ("* EOF */".toList ++ rest).drop (eofTag.length - 1) = rest := by
    rw [show eofTag.length - 1 = ("* EOF */".toList).length from rfl]
    exact List.drop_left _ _
  rw [hd]

/-- Walking a region in which no delimiter occurrence can start. -/
theorem splitEofAux_walk :
    ∀ (pre : List Char) (acc tail : List Char),
      (∀ j, j < pre.length → eofTag.isPrefixOf (pre.drop j ++ tail) = false) →
      splitEofAux acc (pre ++ tail) = splitEofAux (pre.reverse ++ acc) tail := by
  intro pre
  induction pre with
  | nil => intro acc tail _; rfl
  | cons c p ih =>
    intro acc tail h
    have h0 : eofTag.isPrefixOf (c :: (p ++ tail)) = false := by
      have := h 0 (by simp)
      simpa using this
    rw [List.cons_append, splitEofAux_step h0]
    rw [ih (c :: acc) tail (fun j hj => by
      have := h (j + 1) (by simpa using Nat.succ_lt_succ hj)
      simpa using this)]
    simp

/-- A failed `findSub` means no occurrence starts anywhere. -/
theorem findSub_none_not_prefixOf :
    ∀ {hay : List Char}, findSub eofTag hay = none →
      ∀ j, eofTag.isPrefixOf (hay.drop j) = false := by
  intro hay
  induction hay with
  | nil =>
    intro h j
    rw [findSub] at h
    simp only [List.drop_nil]
    by_cases hp : eofTag.isPrefixOf ([] : List Char)
    · rw [if_pos hp] at h; exact absurd h (by simp)
    · exact Bool.eq_false_iff.mpr hp
  | cons c t ih =>
    intro h j
    rw [findSub] at h
    by_cases hp : eofTag.isPrefixOf (c :: t)
    · rw [if_pos hp] at h; exact absurd h (by simp)
    · rw [if_neg hp] at h
      have ht : findSub eofTag t = none := by
        rcases hf : findSub eofTag t with _ | k
        · rfl
        · rw [hf] at h; exact absurd h (by simp)
      rcases j with _ | j
      · exact Bool.eq_false_iff.mpr hp
      · simpa using ih ht j

/-- If a pattern-sized prefix fits inside the first summand, an occurrence at
the seam is an occurrence in the first summand. -/
theorem isPrefixOf_append_of_le {pat a b : List Char}
    (h : pat.isPrefixOf (a ++ b) = true) (hle : pat.length ≤ a.length) :
    pat.isPrefixOf a = true := by
  rw [ List.isPrefixOf_iff_prefix] at h ⊢
  rw [List.prefix_iff_eq_take] at h
  rw [List.take_append_of_le_length hle] at h
  exact h ▸ List.take_prefix _ _


/-- An occurrence overlapping the newline boundary would force a newline into
the delimiter, which contains none. -/
theorem not_prefixOf_at_newline {x y : List Char} (hx : x.length < eofTag.length)
    (h : eofTag.isPrefixOf (x ++ '\n' :: y) = true) : False := by
  rw [ List.isPrefixOf_iff_prefix, List.prefix_iff_eq_take] at h
  have hmem : '\n' ∈ eofTag := by
    rw [h, List.take_append_eq_append_take,
      List.take_of_length_le (le_of_lt hx)]
    refine List.mem_append_right _ ?_
    have h1 : 1 ≤ eofTag.length - x.length := by omega
    rcases hk : eofTag.length - x.length with _ | k
    · omega
    · rw [List.take_succ_cons]
      exact List.mem_cons_self _ _
  exact absurd hmem (by decide)

/-- Inside content that contains no delimiter, no occurrence can start —
whatever newline-led text follows. -/
theorem no_occurrence_in_content {c : List Char} (hc : findSub eofTag c = none) :
    ∀ j, j < c.length → ∀ rest,
      eofTag.isPrefixOf (c.drop j ++ '\n' :: rest) = false := by
  intro j hj rest
  cases hb : eofTag.isPrefixOf (c.drop j ++ '\n' :: rest) with
  | false => rfl
  | true =>
    exfalso
    by_cases hlen : eofTag.length ≤ (c.drop j).length
    · have h2 := isPrefixOf_append_of_le hb hlen
      have h3 := findSub_none_not_prefixOf hc j
      rw [h2] at h3
      exact absurd h3 (by simp)
    · exact not_prefixOf_at_newline (by omega) hb

/-- The delimiter mismatches at every position of a leading CSS tag line. -/
theorem region_css_ok : allDropsMismatch eofTag (([] : List Char) ++ cssTag ++ nlL) = true := by
  decide

/-- The delimiter mismatches at every position of a leading SCSS tag line. -/
theorem region_scss_ok : allDropsMismatch eofTag (([] : List Char) ++ scssTag ++ nlL) = true := by
  decide

/-- The delimiter mismatches at every position of a separator-led CSS tag
line. -/
theorem region_nn_css_ok : allDropsMismatch eofTag (nn ++ cssTag ++ nlL) = true := by
  decide

/-- The delimiter mismatches at every position of a separator-led SCSS tag
line. -/
theorem region_nn_scss_ok : allDropsMismatch eofTag (nn ++ scssTag ++ nlL) = true := by
  decide

/-- Scanning one rendered block (with its leading separator region) emits
exactly the block body (region included) and continues after the delimiter. -/
theorem splitEofAux_block_aux (R c rest acc : List Char)
    (hr : allDropsMismatch eofTag R = true)
    (hc : findSub eofTag c = none) :
    splitEofAux acc (R ++ c ++ nlL ++ eofTag ++ rest) =
      (acc.reverse ++ R ++ c ++ nlL) :: splitEofAux [] rest := by
  have h1 : R ++ c ++ nlL ++ eofTag ++ rest = R ++ (c ++ '\n' :: (eofTag ++ rest)) := by
    simp [nlL, List.append_assoc]
  rw [h1]
  rw [splitEofAux_walk R acc _
    (fun j hj => allDropsMismatch_not_prefixOf hr j hj _)]
  rw [splitEofAux_walk c _ _
    (fun j hj => no_occurrence_in_content hc j hj _)]
  have hstep : eofTag.isPrefixOf ('\n' :: (eofTag ++ rest)) = false :=
    @mismatchWithin_not_prefixOf eofTag ['\n'] (by decide) (eofTag ++ rest)
  rw [splitEofAux_step hstep, splitEofAux_emit]
  simp [nlL, List.append_assoc]

/-- `splitEofAux_block_aux`, phrased for a tagged sub-block. -/
theorem splitEofAux_block (b : StyBlock) (w rest acc : List Char)
    (hw : allDropsMismatch eofTag (w ++ cssTag ++ nlL) = true ∧
      allDropsMismatch eofTag (w ++ scssTag ++ nlL) = true)
    (hc : findSub eofTag (styContent b) = none) :
    splitEofAux acc (w ++ blockBody b ++ eofTag ++ rest) =
      (acc.reverse ++ w ++ blockBody b) :: splitEofAux [] rest := by
  rcases b with c | c
  · have haux := splitEofAux_block_aux (w ++ cssTag ++ nlL) c rest acc hw.1 hc
    have harr : w ++ blockBody (StyBlock.css c) ++ eofTag ++ rest =
        w ++ cssTag ++ nlL ++ c ++ nlL ++ eofTag ++ rest := by
      simp [blockBody, List.append_assoc]
    rw [harr]
    rw [show w ++ cssTag ++ nlL ++ c ++ nlL ++ eofTag ++ rest =
        (w ++ cssTag ++ nlL) ++ c ++ nlL ++ eofTag ++ rest by
      simp [List.append_assoc]]
    rw [haux]
    simp [blockBody, List.append_assoc]
  · have haux := splitEofAux_block_aux (w ++ scssTag ++ nlL) c rest acc hw.2 hc
    have harr : w ++ blockBody (StyBlock.scss c) ++ eofTag ++ rest =
        w ++ scssTag ++ nlL ++ c ++ nlL ++ eofTag ++ rest := by
      simp [blockBody, List.append_assoc]
    rw [harr]
    rw [show w ++ scssTag ++ nlL ++ c ++ nlL ++ eofTag ++ rest =
        (w ++ scssTag ++ nlL) ++ c ++ nlL ++ eofTag ++ rest by
      simp [List.append_assoc]]
    rw [haux]
    simp [blockBody, List.append_assoc]

/-- Splitting a rendered block list yields the first block's body followed by
the separator-led bodies of the remaining blocks and a final empty piece. -/
theorem splitEof_renderBlocks :
    ∀ (bs : List StyBlock) (b : StyBlock) (w : List Char),
      (allDropsMismatch eofTag (w ++ cssTag ++ nlL) = true ∧
        allDropsMismatch eofTag (w ++ scssTag ++ nlL) = true) →
      (∀ x ∈ b :: bs, findSub eofTag (styContent x) = none) →
      splitEofAux [] (w ++ joinSep nn ((b :: bs).map renderBlock)) =
        (w ++ blockBody b) :: tailPieces bs := by
  intro bs
  induction bs with
  | nil =>
    intro b w hw hc
    have h1 : w ++ joinSep nn ([b].map renderBlock) = w ++ blockBody b ++ eofTag ++ [] := by
      simp [joinSep, renderBlock, List.append_assoc]
    rw [h1, splitEofAux_block b w [] [] hw (hc b (by simp))]
    simp [tailPieces, splitEofAux]
  | cons b2 bs2 ih =>
    intro b w hw hc
    have h1 : w ++ joinSep nn ((b :: b2 :: bs2).map renderBlock) =
        w ++ blockBody b ++ eofTag ++ (nn ++ joinSep nn ((b2 :: bs2).map renderBlock)) := by
      simp [joinSep, renderBlock, List.append_assoc]
    rw [h1, splitEofAux_block b w _ [] hw (hc b (by simp))]
    rw [ih b2 nn ⟨region_nn_css_ok, region_nn_scss_ok⟩
      (fun x hx => hc x (by simp at hx ⊢; tauto))]
    simp [tailPieces]

/- ### Trim interaction lemmas (C5) -/

/-- The head surviving a `dropWhile` fails the predicate. -/
theorem dropWhile_head_false {p : Char → Bool} :
    ∀ {l : List Char} {c : Char} {t : List Char},
      List.dropWhile p l = c :: t → p c = false := by
  intro l
  induction l with
  | nil => intro c t h; simp at h
  | cons a l' ih =>
    intro c t h
    rw [List.dropWhile_cons] at h
    split at h
    · exact ih h
    · next ha =>
        injection h with h1 _
        subst h1
        exact Bool.eq_false_iff.mpr ha

/-- `dropWhile` is idempotent. -/
theorem dropWhile_ws_idem (l : List Char) :
    List.dropWhile isRustWs (List.dropWhile isRustWs l) =
      List.dropWhile isRustWs l := by
  rcases h : List.dropWhile isRustWs l with _ | ⟨c, t⟩
  · rfl
  · rw [List.dropWhile_cons, if_neg (by simp [dropWhile_head_false h])]

/-- `trimEndL` is idempotent. -/
theorem trimEndL_idem (s : List Char) : trimEndL (trimEndL s) = trimEndL s := by
  rw [trimEndL, trimEndL, List.reverse_reverse, dropWhile_ws_idem]

/-- Trimming the two ends commutes. -/
theorem trimStartL_trimEndL_comm (s : List Char) :
    trimStartL (trimEndL s) = trimEndL (trimStartL s) := by
  induction s with
  | nil => rfl
  | cons c t ih =>
    by_cases hc : isRustWs c
    · have h1 : trimStartL (c :: t) = trimStartL t := by
        rw [trimStartL, List.dropWhile_cons, if_pos (by simp [hc])]
        rfl
      rcases htE : trimEndL t with _ | ⟨d, r⟩
      · have h2 : trimEndL (c :: t) = [] := by
          rw [trimEndL_eq_nil_iff]
          intro x hx
          rcases List.mem_cons.mp hx with hx | hx
          · subst hx; exact hc
          · exact trimEndL_eq_nil_iff.mp htE x hx
        rw [h2, h1, ← ih, htE]
      · have h2 : trimEndL (c :: t) = c :: trimEndL t := by
          rw [show (c :: t) = [c] ++ t from rfl, trimEndL_append,
            if_neg (by simp [htE])]
          simp
        rw [h2, h1, ← ih, htE]
        rw [trimStartL, List.dropWhile_cons, if_pos (by simp [hc])]
        rfl
    · have h1 : trimStartL (c :: t) = c :: t := trimStartL_no_ws_head hc t
      rw [h1]
      rcases htE : trimEndL t with _ | ⟨d, r⟩
      · have h2 : trimEndL (c :: t) = [c] := by
          rw [show (c :: t) = [c] ++ t from rfl, trimEndL_append, if_pos htE]
          rw [trimEndL]
          simp [List.dropWhile, hc]
        rw [h2]
        exact trimStartL_no_ws_head hc []
      · have h2 : trimEndL (c :: t) = c :: trimEndL t := by
          rw [show (c :: t) = [c] ++ t from rfl, trimEndL_append,
            if_neg (by simp [htE])]
          simp
        rw [h2]
        exact trimStartL_no_ws_head hc _

/-- Trimming after an end-trim is just the full trim. -/
theorem trimL_trimEndL (c : List Char) : trimL (trimEndL c) = trimL c := by
  rw [trimL, trimL, trimStartL_trimEndL_comm, trimEndL_idem]

/-- A leading newline does not change the trim. -/
theorem trimL_nl_append (z : List Char) : trimL (nlL ++ z) = trimL z := by
  rw [trimL, trimL, trimStartL_ws_append (by decide)]

/-- A nonempty trim forces a nonempty end-trim. -/
theorem trimEndL_ne_nil {c : List Char} (h : trimL c ≠ []) : trimEndL c ≠ [] := by
  intro he
  exact h (trimL_eq_nil_iff.mpr (trimEndL_eq_nil_iff.mp he))

/-- Trimming a whitespace-led tagged piece keeps the tag line and end-trims
the content. -/
theorem trimL_piece (d : Char) (tagR : List Char) (hd : isRustWs d = false)
    (w : List Char) (hw : ∀ x ∈ w, isRustWs x) (c : List Char)
    (hc : trimEndL c ≠ []) :
    trimL (w ++ (d :: tagR) ++ nlL ++ c ++ nlL) = (d :: tagR) ++ nlL ++ trimEndL c := by
  rw [trimL]
  have h1 : trimStartL (w ++ (d :: tagR) ++ nlL ++ c ++ nlL) =
      (d :: tagR) ++ nlL ++ c ++ nlL := by
    rw [show w ++ (d :: tagR) ++ nlL ++ c ++ nlL =
        w ++ ((d :: tagR) ++ nlL ++ c ++ nlL) by simp [List.append_assoc]]
    rw [trimStartL_ws_append hw]
    rw [show (d :: tagR) ++ nlL ++ c ++ nlL = d :: (tagR ++ nlL ++ c ++ nlL) by
      simp [List.append_assoc]]
    rw [trimStartL_no_ws_head (by simp [hd])]
  rw [h1]
  rw [show (d :: tagR) ++ nlL ++ c ++ nlL = ((d :: tagR) ++ nlL) ++ (c ++ nlL) by
    simp [List.append_assoc]]
  rw [trimEndL_append, trimEndL_append_ws (by decide) c, if_neg hc]

/- ### Piece-processing lemmas (C5) -/

/-- Stripping a prefix that is literally there. -/
theorem stripPre_append (pre x : List Char) : stripPre pre (pre ++ x) = some x := by
  rw [stripPre, if_pos ( List.isPrefixOf_iff_prefix.mpr (List.prefix_append _ _))]
  rw [List.drop_left]

/-- The CSS tag is not a prefix of an SCSS-tagged piece. -/
theorem stripPre_css_of_scss (x : List Char) : stripPre cssTag (scssTag ++ x) = none := by
  rw [stripPre, if_neg]
  intro h
  have hfalse := @mismatchWithin_not_prefixOf cssTag scssTag (by decide) x
  rw [h] at hfalse
  exact absurd hfalse (by simp)

/-- Processing one well-formed tagged piece (with optional leading
whitespace) emits exactly the expected artifact for its block. -/
theorem processSections_piece (compile : List Char → Except Unit (List Char))
    (b : StyBlock) (w : List Char) (hw : ∀ x ∈ w, isRustWs x)
    (hb : trimL (styContent b) ≠ []) (rest : List (List Char)) :
    processSections compile ((w ++ blockBody b) :: rest) =
      expectedBlock compile b :: processSections compile rest := by
  rcases b with c | c
  · have hb' : trimL c ≠ [] := hb
    have hE : trimEndL c ≠ [] := trimEndL_ne_nil hb'
    have htrim : trimL (w ++ blockBody (StyBlock.css c)) = cssTag ++ (nlL ++ trimEndL c) := by
      have h := trimL_piece '/' ("* CSS */".toList) (by decide) w hw c hE
      rw [show w ++ blockBody (StyBlock.css c) =
          w ++ ('/' :: "* CSS */".toList) ++ nlL ++ c ++ nlL by
        simp [blockBody, cssTag, List.append_assoc]]
      rw [h]
      simp [cssTag, List.append_assoc]
    rw [processSections, htrim]
    rw [if_neg (by simp [cssTag]), stripPre_append]
    show (let css := trimL (nlL ++ trimEndL c);
      if css = [] then processSections compile rest
      else css :: processSections compile rest) =
      expectedBlock compile (StyBlock.css c) :: processSections compile rest
    simp only [trimL_nl_append, trimL_trimEndL]
    rw [if_neg hb']
    rfl
  · have hb' : trimL c ≠ [] := hb
    have hE : trimEndL c ≠ [] := trimEndL_ne_nil hb'
    have htrim : trimL (w ++ blockBody (StyBlock.scss c)) = scssTag ++ (nlL ++ trimEndL c) := by
      have h := trimL_piece '/' ("* SCSS */".toList) (by decide) w hw c hE
      rw [show w ++ blockBody (StyBlock.scss c) =
          w ++ ('/' :: "* SCSS */".toList) ++ nlL ++ c ++ nlL by
        simp [blockBody, scssTag, List.append_assoc]]
      rw [h]
      simp [scssTag, List.append_assoc]
    rw [processSections, htrim]
    rw [if_neg (by simp [scssTag]), stripPre_css_of_scss, stripPre_append]
    show (let scss := trimL (nlL ++ trimEndL c);
      if scss = [] then processSections compile rest
      else (match compile scss with
        | Except.ok compiled => compiled
        | Except.error _ => scss) :: processSections compile rest) =
      expectedBlock compile (StyBlock.scss c) :: processSections compile rest
    simp only [trimL_nl_append, trimL_trimEndL]
    rw [if_neg hb']
    rfl

/-- Processing the remaining pieces of a rendered block list yields the
expected artifacts in order (the final empty piece is skipped). -/
theorem processSections_tailPieces (compile : List Char → Except Unit (List Char)) :
    ∀ bs : List StyBlock, (∀ b ∈ bs, trimL (styContent b) ≠ []) →
      processSections compile (tailPieces bs) = bs.map (expectedBlock compile) := by
  intro bs
  induction bs with
  | nil =>
    intro _
    simp [tailPieces, processSections, trimL, trimStartL, trimEndL]
  | cons b bs ih =>
    intro h
    rw [tailPieces, processSections_piece compile b nn (by decide) (h b (by simp)) _]
    rw [ih (fun x hx => h x (by simp [hx]))]
    rfl

/-- Claim C5, corrected: on a delimiter-tagged styling input whose sub-block
contents do not themselves contain the `"/* EOF */"` delimiter and are not
all-whitespace, `process_styling_content` emits one artifact per sub-block in
original order, joined by a blank line; each sub-block's content is trimmed
of surrounding whitespace on extraction — CSS sub-blocks pass through
otherwise unchanged, and each SCSS sub-block is compiled from the trimmed
text, with the trimmed raw SCSS text substituted unmodified (never dropped)
when the external compiler fails. -/
theorem c5_styling_pipeline :
    ∀ (compile : List Char → Except Unit (List Char)) (bs : List StyBlock),
      (∀ b ∈ bs, trimL (styContent b) ≠ [] ∧ findSub eofTag (styContent b) = none) →
      process_styling_content compile (renderBlocks bs) =
        joinSep nn (bs.map (expectedBlock compile)) := by
  intro compile bs h
  rcases bs with _ | ⟨b, bs⟩
  · simp [process_styling_content, renderBlocks, joinSep, split_eof, splitEofAux,
      processSections, trimL, trimStartL, trimEndL]
  · rw [process_styling_content, renderBlocks, split_eof]
    rw [show joinSep nn ((b :: bs).map renderBlock) =
        [] ++ joinSep nn ((b :: bs).map renderBlock) from (List.nil_append _).symm]
    rw [splitEof_renderBlocks bs b [] ⟨region_css_ok, region_scss_ok⟩
      (fun x hx => (h x hx).2)]
    rw [processSections_piece compile b [] (by simp) (h b (by simp)).1 _]
    rw [processSections_tailPieces compile bs (fun x hx => (h x (by simp [hx])).1)]
    rfl

/-- Witness for C5: one CSS and one failing SCSS block. -/
theorem c5_witness :
    (∀ b ∈ [StyBlock.css ("a".toList), StyBlock.scss ("$x: 1;".toList)],
      trimL (styContent b) ≠ [] ∧ findSub eofTag (styContent b) = none) ∧
    process_styling_content compileFail
        (renderBlocks [StyBlock.css ("a".toList), StyBlock.scss ("$x: 1;".toList)]) =
      joinSep nn ([StyBlock.css ("a".toList), StyBlock.scss ("$x: 1;".toList)].map
        (expectedBlock compileFail)) :=
  ⟨by decide,
    c5_styling_pipeline compileFail
      [StyBlock.css ("a".toList), StyBlock.scss ("$x: 1;".toList)] (by decide)⟩

/-- Counterexample to C5 as stated: a CSS sub-block with surrounding
whitespace does not pass through byte-identically — it is trimmed. -/
theorem c5_counterexample_css_trimmed :
    process_styling_content compileFail (renderBlocks [StyBlock.css (" a ".toList)]) =
        "a".toList ∧
      ("a".toList : List Char) ≠ " a ".toList := by
  constructor
  · have hsplit : split_eof (renderBlocks [StyBlock.css (" a ".toList)]) =
        [blockBody (StyBlock.css (" a ".toList)), []] := by
      rw [renderBlocks, split_eof]
      rw [show joinSep nn ([StyBlock.css (" a ".toList)].map renderBlock) =
          [] ++ joinSep nn ([StyBlock.css (" a ".toList)].map renderBlock) from
        (List.nil_append _).symm]
      rw [splitEof_renderBlocks [] (StyBlock.css (" a ".toList)) []
        ⟨region_css_ok, region_scss_ok⟩ (by decide)]
      rfl
    rw [process_styling_content, hsplit]
    decide
  · decide

end BReach
